import Mathlib

/-!
Verification of the Kobo DRM proof-of-concept transcoder
(`scripts/kobo_drm_poc.py`) against its natural-language specification.

Byte strings are modelled as `List Nat` (each element a byte value 0..255).
Python strings handled by the script are ASCII and are modelled by their
byte sequences.  Fallible Python operations (which raise exceptions) are
modelled with `Except PyErr`.  The AES-ECB block permutation supplied by the
external pycryptodome library is a parameter `E : Bytes → Bytes → Bytes`
(key, data ↦ data); the length checks that `AES.new` / `decrypt` perform are
part of the embedding.  SHA-256 (from `hashlib`) is implemented in full.
-/

namespace KoboPoc

abbrev Bytes := List Nat

/-- The Python exception kinds the script can raise on the modelled paths. -/
inductive PyErr where
  | fileNotFoundError
  | valueError
  | binasciiInvalidLength
  | binasciiIncorrectPadding
  | keyError
  | indexError
  deriving DecidableEq, Repr

/-- ASCII encoding of a Lean string literal, as a byte list. -/
def ascii (s : String) : Bytes := s.data.map Char.toNat

instance {ε α : Type} [DecidableEq ε] [DecidableEq α] :
    DecidableEq (Except ε α) := fun x y =>
  match x, y with
  | .ok a, .ok b =>
      if h : a = b then isTrue (by rw [h])
      else isFalse (by intro hh; cases hh; exact h rfl)
  | .error a, .error b =>
      if h : a = b then isTrue (by rw [h])
      else isFalse (by intro hh; cases hh; exact h rfl)
  | .ok _, .error _ => isFalse (by intro hh; cases hh)
  | .error _, .ok _ => isFalse (by intro hh; cases hh)

/-! ### SHA-256 (hashlib.sha256), implemented in full -/

/-- Truncate to a 32-bit word. -/
def w32 (x : Nat) : Nat := x % 4294967296

/-- Rotate a 32-bit word right by `n` positions. -/
def rotr (n x : Nat) : Nat := (x >>> n) ||| w32 (x <<< (32 - n))

def shaCh (x y z : Nat) : Nat := (x &&& y) ^^^ ((x ^^^ 4294967295) &&& z)

def shaMaj (x y z : Nat) : Nat := (x &&& y) ^^^ (x &&& z) ^^^ (y &&& z)

def bsig0 (x : Nat) : Nat := rotr 2 x ^^^ rotr 13 x ^^^ rotr 22 x

def bsig1 (x : Nat) : Nat := rotr 6 x ^^^ rotr 11 x ^^^ rotr 25 x

def ssig0 (x : Nat) : Nat := rotr 7 x ^^^ rotr 18 x ^^^ (x >>> 3)

def ssig1 (x : Nat) : Nat := rotr 17 x ^^^ rotr 19 x ^^^ (x >>> 10)

/-- The sixty-four round constants of SHA-256 (FIPS 180-4), in decimal. -/
def shaK : List Nat :=
  [1116352408, 1899447441, 3049323471, 3921009573, 961987163,
   1508970993, 2453635748, 2870763221, 3624381080, 310598401,
   607225278, 1426881987, 1925078388, 2162078206, 2614888103,
   3248222580, 3835390401, 4022224774, 264347078, 604807628,
   770255983, 1249150122, 1555081692, 1996064986, 2554220882,
   2821834349, 2952996808, 3210313671, 3336571891, 3584528711,
   113926993, 338241895, 666307205, 773529912, 1294757372,
   1396182291, 1695183700, 1986661051, 2177026350, 2456956037,
   2730485921, 2820302411, 3259730800, 3345764771, 3516065817,
   3600352804, 4094571909, 275423344, 430227734, 506948616,
   659060556, 883997877, 958139571, 1322822218, 1537002063,
   1747873779, 1955562222, 2024104815, 2227730452, 2361852424,
   2428436474, 2756734187, 3204031479, 3329325298]

/-- SHA-256 hash state: eight 32-bit words. -/
structure Hash8 where
  a : Nat
  b : Nat
  c : Nat
  d : Nat
  e : Nat
  f : Nat
  g : Nat
  h : Nat
  deriving DecidableEq, Repr

/-- The initial SHA-256 hash value (FIPS 180-4), in decimal. -/
def shaInit : Hash8 :=
  ⟨1779033703, 3144134277, 1013904242, 2773480762,
   1359893119, 2600822924, 528734635, 1541459225⟩

/-- Big-endian rendering of `n` on `k` bytes. -/
def beBytes : Nat → Nat → Bytes
  | 0, _ => []
  | k + 1, n => beBytes k (n / 256) ++ [n % 256]

/-- Group a byte stream into big-endian 32-bit words. -/
def toWords : Bytes → List Nat
  | a :: b :: c :: d :: rest =>
      (a * 16777216 + b * 65536 + c * 256 + d) :: toWords rest
  | _ => []

/-- Extend the 16 message words to the 64-entry message schedule. -/
def nextW (w : List Nat) : Nat :=
  w32 (ssig1 (w.getD (w.length - 2) 0) + w.getD (w.length - 7) 0 +
       ssig0 (w.getD (w.length - 15) 0) + w.getD (w.length - 16) 0)

def schedule (w : List Nat) : List Nat :=
  (List.range 48).foldl (fun acc _ => acc ++ [nextW acc]) w

/-- One SHA-256 round on the working variables. -/
def shaRound (st : Hash8) (kw : Nat × Nat) : Hash8 :=
  let t1 := w32 (st.h + bsig1 st.e + shaCh st.e st.f st.g + kw.1 + kw.2)
  let t2 := w32 (bsig0 st.a + shaMaj st.a st.b st.c)
  ⟨w32 (t1 + t2), st.a, st.b, st.c, w32 (st.d + t1), st.e, st.f, st.g⟩

/-- Compress one 64-byte block into the running hash state. -/
def compressBlock (st : Hash8) (block : Bytes) : Hash8 :=
  let r := ((shaK.zip (schedule (toWords block))).foldl shaRound st)
  ⟨w32 (st.a + r.a), w32 (st.b + r.b), w32 (st.c + r.c), w32 (st.d + r.d),
   w32 (st.e + r.e), w32 (st.f + r.f), w32 (st.g + r.g), w32 (st.h + r.h)⟩

/-- SHA-256 message padding: `0x80`, zeros, then the 64-bit bit length. -/
def padMsg (msg : Bytes) : Bytes :=
  msg ++ [128] ++ List.replicate ((64 - ((msg.length + 9) % 64)) % 64) 0 ++
    beBytes 8 ((msg.length * 8) % 18446744073709551616)

/-- Split a byte stream into 64-byte chunks. -/
def chunks64 : Bytes → List Bytes
  | [] => []
  | c :: rest => ((c :: rest).take 64) :: chunks64 ((c :: rest).drop 64)
  termination_by l => l.length
  decreasing_by simp [List.length_drop]; omega

def hashBytes (st : Hash8) : Bytes :=
  beBytes 4 st.a ++ beBytes 4 st.b ++ beBytes 4 st.c ++ beBytes 4 st.d ++
  beBytes 4 st.e ++ beBytes 4 st.f ++ beBytes 4 st.g ++ beBytes 4 st.h

/-- SHA-256 of a byte string (the digest, 32 raw bytes). -/
def sha256 (msg : Bytes) : Bytes :=
  hashBytes ((chunks64 (padMsg msg)).foldl compressBlock shaInit)

/-! ### Lowercase hex rendering (`.hexdigest()`) and decoding (`a2b_hex`) -/

/-- The lowercase hex digit character for a value 0..15. -/
def hexChar (n : Nat) : Nat := if n < 10 then 48 + n else 87 + n

/-- Lowercase hexadecimal rendering of a byte string, as ASCII bytes. -/
def hexString (l : Bytes) : Bytes :=
  l.foldr (fun b acc => hexChar (b / 16) :: hexChar (b % 16) :: acc) []

/-- Value of an ASCII hex digit (inputs on the modelled paths are always
valid lowercase hex, so this is total). -/
def hexVal (c : Nat) : Nat := if c < 58 then c - 48 else c - 87

/-- `binascii.a2b_hex` on valid even-length hex input. -/
def a2b_hex : Bytes → Bytes
  | a :: b :: rest => (hexVal a * 16 + hexVal b) :: a2b_hex rest
  | _ => []

/-! ### Key derivation (`derive_user_key`) -/

/-- `derive_user_key(serial, user_id, hash_key)` from the source:
two chained SHA-256 hexdigests, then the hex-decoded second half. -/
def derive_user_key (serial user_id hash_key : Bytes) : Bytes :=
  let device_id := hexString (sha256 (hash_key ++ serial))
  let user_key_hex := hexString (sha256 (device_id ++ user_id))
  a2b_hex (user_key_hex.drop 32)

/-- Reference definition following the specification text (§4.3 / C3):
`deviceDigest` is the 64-character lowercase hex rendering of
SHA-256(seed ++ serial); `userDigest` is the 64-character lowercase hex
rendering of SHA-256(deviceDigest ++ userId); the master key is the
hex-decoding of characters 32..64 of `userDigest`. -/
def masterKeySpec (seed serial userId : Bytes) : Bytes :=
  let deviceDigest := hexString (sha256 (seed ++ serial))
  let userDigest := hexString (sha256 (deviceDigest ++ userId))
  a2b_hex ((userDigest.drop 32).take 32)

/-! ### base64 decoding (`base64.b64decode`, lenient `binascii.a2b_base64`) -/

/-- Value of a base64 alphabet character, `none` for non-alphabet bytes
(which the lenient decoder discards). -/
def b64Val (c : Nat) : Option Nat :=
  if 65 ≤ c ∧ c ≤ 90 then some (c - 65)
  else if 97 ≤ c ∧ c ≤ 122 then some (c - 71)
  else if 48 ≤ c ∧ c ≤ 57 then some (c + 4)
  else if c = 43 then some 62
  else if c = 47 then some 63
  else none

/-- Decode one complete quad of six-bit values to three bytes. -/
def quadBytes (a b c d : Nat) : Bytes :=
  [a * 4 + b / 16, (b % 16) * 16 + c / 4, (c % 4) * 64 + d]

/-- `base64.b64decode` in its default lenient mode: non-alphabet bytes are
discarded; `=` at quad position 0 or 1 is ignored; `=` at position 2 must be
followed immediately by a second `=` (else "Incorrect padding"); padding
terminates decoding; a trailing partial quad raises "Incorrect padding"
(2 or 3 leftover characters) or the invalid-length error (1 leftover). -/
def b64decodeAux : Bytes → List Nat → Except PyErr Bytes
  | [], quad =>
      match quad with
      | [] => .ok []
      | [_] => .error .binasciiInvalidLength
      | _ => .error .binasciiIncorrectPadding
  | c :: rest, quad =>
      if c = 61 then
        match quad with
        | [a, b] =>
            match rest with
            | 61 :: _ => .ok [a * 4 + b / 16]
            | _ => .error .binasciiIncorrectPadding
        | [a, b, c3] => .ok [a * 4 + b / 16, (b % 16) * 16 + c3 / 4]
        | _ => b64decodeAux rest quad
      else
        match b64Val c with
        | none => b64decodeAux rest quad
        | some v =>
            match quad with
            | [a, b, c3] =>
                match b64decodeAux rest [] with
                | .ok r => .ok (quadBytes a b c3 v ++ r)
                | .error e => .error e
            | _ => b64decodeAux rest (quad ++ [v])

def b64decode (s : Bytes) : Except PyErr Bytes := b64decodeAux s []

/-! ### AES-ECB wrapper (pycryptodome `AES.new(key, MODE_ECB)` / `decrypt`)

The block permutation itself is external; we model it as a parameter
`E : Bytes → Bytes → Bytes` and embed the library's argument checks:
`AES.new` raises `ValueError` unless the key is 16, 24 or 32 bytes, and
`decrypt` raises `ValueError` unless the data length is a multiple of 16. -/

def aesEcbDecrypt (E : Bytes → Bytes → Bytes) (key data : Bytes) :
    Except PyErr Bytes :=
  if key.length = 16 ∨ key.length = 24 ∨ key.length = 32 then
    if data.length % 16 = 0 then .ok (E key data)
    else .error .valueError
  else .error .valueError

/-- `decrypt_content_key(encrypted_key_b64, master_key)`:
base64-decode, then AES-ECB-decrypt under the master key. -/
def decrypt_content_key (E : Bytes → Bytes → Bytes)
    (encrypted_key_b64 master_key : Bytes) : Except PyErr Bytes := do
  let encrypted_key ← b64decode encrypted_key_b64
  aesEcbDecrypt E master_key encrypted_key

/-! ### PKCS7 unpadding (`pkcs7_unpad`) -/

/-- Python's slice `xs[:-n]` for a non-negative `n`: empty when `n = 0`
(since `-0 = 0`) and when `n ≥ len`; otherwise all but the last `n`. -/
def pyNegSlice (xs : Bytes) (n : Nat) : Bytes :=
  if n = 0 then [] else xs.take (xs.length - n)

/-- `pkcs7_unpad(data)`: `data[-1]` raises `IndexError` on an empty buffer;
otherwise the result is `data[:-data[-1]]`. -/
def pkcs7_unpad (data : Bytes) : Except PyErr Bytes :=
  match data.getLast? with
  | none => .error .indexError
  | some n => .ok (pyNegSlice data n)

/-- `decrypt_file_content(encrypted_content, content_key)`:
AES-ECB-decrypt, then strip PKCS7 padding. -/
def decrypt_file_content (E : Bytes → Bytes → Bytes)
    (encrypted_content content_key : Bytes) : Except PyErr Bytes := do
  let decrypted_content ← aesEcbDecrypt E content_key encrypted_content
  pkcs7_unpad decrypted_content

/-! ### Device descriptor (`get_device_serial`) -/

/-- Python `str.isspace` characters relevant to `strip()`. -/
def isPySpace (c : Nat) : Bool :=
  c = 32 || c = 9 || c = 10 || c = 13 || c = 11 || c = 12

/-- Python `str.strip()`: drop leading and trailing whitespace. -/
def pyStrip (s : Bytes) : Bytes :=
  ((s.dropWhile isPySpace).reverse.dropWhile isPySpace).reverse

/-- Python `str.split(sep)` for a one-character separator: always returns at
least one (possibly empty) field. -/
def pySplit (sep : Nat) : Bytes → List Bytes
  | [] => [[]]
  | c :: rest =>
      if c = sep then [] :: pySplit sep rest
      else
        match pySplit sep rest with
        | [] => [[c]]
        | g :: gs => (c :: g) :: gs

/-- `get_device_serial(kobo_dir)`: the version file's existence and content
are modelled by an `Option Bytes`.  Missing file: `FileNotFoundError`.
Otherwise the content is stripped and split on commas; the first field is
returned when there is at least one, else `ValueError`. -/
def get_device_serial (version_file : Option Bytes) : Except PyErr Bytes :=
  match version_file with
  | none => .error .fileNotFoundError
  | some content =>
      let parts := pySplit 44 (pyStrip content)
      if 1 ≤ parts.length then .ok (parts.headD [])
      else .error .valueError

/-! ### Archive transcoder (`decrypt_book`) -/

/-- One archive entry: name, opaque metadata token (`ZipInfo` fields other
than the name), and payload bytes. -/
structure ZipEntry where
  filename : Bytes
  meta : Nat
  content : Bytes
  deriving DecidableEq, Repr

/-- `file_path.replace("\\", "/")`. -/
def normalizePath (name : Bytes) : Bytes :=
  name.map (fun c => if c = 92 then 47 else c)

/-- The upfront loop of `decrypt_book` that decrypts every content key in
the table; the first exception aborts the whole call. -/
def decryptAllKeys (E : Bytes → Bytes → Bytes) (user_key : Bytes) :
    List (Bytes × Bytes) → Except PyErr (List (Bytes × Bytes))
  | [] => .ok []
  | (element_id, encrypted_key_b64) :: rest => do
      let d ← decrypt_content_key E encrypted_key_b64 user_key
      let r ← decryptAllKeys E user_key rest
      .ok ((element_id, d) :: r)

/-- The per-entry loop of `decrypt_book`: returns the output entries along
with the `files_decrypted` and `files_copied` counters.  A matched entry
whose payload decryption raises is written back unchanged and counted in
neither counter. -/
def processEntries (E : Bytes → Bytes → Bytes)
    (decrypted_keys : List (Bytes × Bytes)) :
    List ZipEntry → List ZipEntry × Nat × Nat
  | [] => ([], 0, 0)
  | e :: rest =>
      let r := processEntries E decrypted_keys rest
      match List.lookup (normalizePath e.filename) decrypted_keys with
      | some content_key =>
          match decrypt_file_content E e.content content_key with
          | .ok dec => ({ e with content := dec } :: r.1, r.2.1 + 1, r.2.2)
          | .error _ => (e :: r.1, r.2.1, r.2.2)
      | none => (e :: r.1, r.2.1, r.2.2 + 1)

/-- `decrypt_book(input, output, user_key, content_keys_map)`: decrypt all
content keys upfront, then stream the entries. -/
def decrypt_book (E : Bytes → Bytes → Bytes) (user_key : Bytes)
    (content_keys_map : List (Bytes × Bytes)) (entries : List ZipEntry) :
    Except PyErr (List ZipEntry × Nat × Nat) := do
  let decrypted_keys ← decryptAllKeys E user_key content_keys_map
  .ok (processEntries E decrypted_keys entries)

/-- Specification-side count: matched entries whose payload decryption
fails (these are written as fallback by `processEntries`). -/
def countFailed (E : Bytes → Bytes → Bytes)
    (decrypted_keys : List (Bytes × Bytes)) : List ZipEntry → Nat
  | [] => 0
  | e :: rest =>
      countFailed E decrypted_keys rest +
      match List.lookup (normalizePath e.filename) decrypted_keys with
      | some content_key =>
          match decrypt_file_content E e.content content_key with
          | .ok _ => 0
          | .error _ => 1
      | none => 0

/-! ### Candidate verifier and key search (the loop in `main`) -/

/-- Python's `pat in hay` on byte strings: substring occurrence. -/
def bytesContain (pat : Bytes) : Bytes → Bool
  | [] => pat.isEmpty
  | c :: t => pat.isPrefixOf (c :: t) || bytesContain pat t

def xmlSig : Bytes := ascii "<?xml"

def htmlSig : Bytes := ascii "<html"

def jpegSig : Bytes := [255, 216, 255]

/-- The acceptance test in `main`:
`b"<?xml" in d[:100] or b"<html" in d[:100] or b"\xff\xd8\xff" in d[:10]`. -/
def checkSignatures (d : Bytes) : Bool :=
  bytesContain xmlSig (d.take 100) || bytesContain htmlSig (d.take 100) ||
    bytesContain jpegSig (d.take 10)

/-- The decode/decrypt chain of one candidate inside `main`'s `try` block:
decrypt the first content key, read the first element from the archive
(modelled by `read`), decrypt its payload. -/
def recoverPlaintext (E : Bytes → Bytes → Bytes)
    (read : Bytes → Except PyErr Bytes)
    (first_element first_key_b64 user_key : Bytes) : Except PyErr Bytes := do
  let decrypted_content_key ← decrypt_content_key E first_key_b64 user_key
  let encrypted_content ← read first_element
  decrypt_file_content E encrypted_content decrypted_content_key

/-- Whether `main` accepts a candidate master key: the chain must complete
without an exception and the signature check must pass; any exception is
swallowed by the `except: continue`. -/
def verifyCandidate (E : Bytes → Bytes → Bytes)
    (read : Bytes → Except PyErr Bytes)
    (first_element first_key_b64 user_key : Bytes) : Bool :=
  match recoverPlaintext E read first_element first_key_b64 user_key with
  | .ok d => checkSignatures d
  | .error _ => false

/-- The seed loop of `main`: per candidate, the block inside the `try`
decrypts the first content key, reads and decrypts the first element,
checks the signatures, and — on acceptance — runs the full `decrypt_book`
transcode before `success = True` and `break`.  An exception anywhere in
that block, including one raised by the transcode after acceptance, is
swallowed by `except: continue` and the next seed is tried; a failed
signature check also just moves to the next seed.  The first element and
its key are the head of the (non-empty) content-key table, recomputed per
iteration.  Returns the accepted user key, or `none` when the list is
exhausted (the script then reports the terminal failure and exits). -/
def searchKey (E : Bytes → Bytes → Bytes) (read : Bytes → Except PyErr Bytes)
    (serial user_id : Bytes) (content_keys : List (Bytes × Bytes))
    (entries : List ZipEntry) : List Bytes → Option Bytes
  | [] => none
  | hash_key :: rest =>
      let user_key := derive_user_key serial user_id hash_key
      let first_element := (content_keys.headD ([], [])).1
      let first_key_b64 := (content_keys.headD ([], [])).2
      match recoverPlaintext E read first_element first_key_b64 user_key with
      | .error _ => searchKey E read serial user_id content_keys entries rest
      | .ok d =>
          if checkSignatures d then
            match decrypt_book E user_key content_keys entries with
            | .ok _ => some user_key
            | .error _ =>
                searchKey E read serial user_id content_keys entries rest
          else searchKey E read serial user_id content_keys entries rest

/-! ### Basic lemmas -/

theorem beBytes_length (k n : Nat) : (beBytes k n).length = k := by
  induction k generalizing n with
  | zero => rfl
  | succ k ih => simp [beBytes, ih]

theorem hashBytes_length (st : Hash8) : (hashBytes st).length = 32 := by
  simp [hashBytes, beBytes_length]

theorem sha256_length (msg : Bytes) : (sha256 msg).length = 32 := by
  simp [sha256, hashBytes_length]

theorem hexString_length (l : Bytes) : (hexString l).length = 2 * l.length := by
  induction l with
  | nil => rfl
  | cons b t ih => simp [hexString] at ih ⊢; omega

/-- Whether an `Except` computation finished without raising. -/
def exOk {α : Type} : Except PyErr α → Bool
  | .ok _ => true
  | .error _ => false

/-- A concrete instance of the external AES-ECB block permutation, used for
concrete runs of the transcoder and verifier. -/
def idCipher : Bytes → Bytes → Bytes := fun _ data => data

def dummyEntry : ZipEntry := ⟨[], 0, []⟩

/-- The claim C1's acceptance predicate: the recovered buffer begins with
one of the recognized signatures. -/
def beginsWithSig (d : Bytes) : Prop :=
  xmlSig <+: d ∨ htmlSig <+: d ∨ jpegSig <+: d

/-- The per-seed acceptance test of the search loop in `main`. -/
def acceptsSeed (E : Bytes → Bytes → Bytes) (read : Bytes → Except PyErr Bytes)
    (serial user_id first_element first_key_b64 : Bytes)
    (hash_key : Bytes) : Bool :=
  verifyCandidate E read first_element first_key_b64
    (derive_user_key serial user_id hash_key)

/-- Whether a seed makes the whole loop body of `main` succeed: its
candidate is accepted by the verifier and the transcode that then runs
inside the same `try` block completes without an exception. -/
def seedSucceeds (E : Bytes → Bytes → Bytes) (read : Bytes → Except PyErr Bytes)
    (serial user_id : Bytes) (content_keys : List (Bytes × Bytes))
    (entries : List ZipEntry) (hash_key : Bytes) : Bool :=
  acceptsSeed E read serial user_id (content_keys.headD ([], [])).1
    (content_keys.headD ([], [])).2 hash_key &&
  exOk (decrypt_book E (derive_user_key serial user_id hash_key) content_keys
    entries)

theorem pySplit_length_pos (sep : Nat) (l : Bytes) :
    1 ≤ (pySplit sep l).length := by
  induction l with
  | nil => simp [pySplit]
  | cons c t ih =>
      simp only [pySplit]
      split
      · simp
      · split <;> simp

theorem bytesContain_iff (pat hay : Bytes) :
    bytesContain pat hay = true ↔ ∃ i, pat <+: hay.drop i := by
  induction hay with
  | nil =>
      simp only [bytesContain, List.drop_nil]
      cases pat <;> simp [List.isEmpty]
  | cons c t ih =>
      simp only [bytesContain, Bool.or_eq_true, List.isPrefixOf_iff_prefix, ih]
      constructor
      · rintro (h | ⟨i, h⟩)
        · exact ⟨0, h⟩
        · exact ⟨i + 1, by simpa [List.drop_succ_cons] using h⟩
      · rintro ⟨i, h⟩
        cases i with
        | zero => exact Or.inl h
        | succ j => exact Or.inr ⟨j, by simpa [List.drop_succ_cons] using h⟩

theorem decryptAllKeys_fst (E : Bytes → Bytes → Bytes) (key : Bytes) :
    ∀ (t dk : List (Bytes × Bytes)), decryptAllKeys E key t = .ok dk →
      dk.map Prod.fst = t.map Prod.fst := by
  intro t
  induction t with
  | nil => intro dk h; simp [decryptAllKeys] at h; simp [← h]
  | cons p rest ih =>
      intro dk h
      simp only [decryptAllKeys] at h
      cases hd : decrypt_content_key E p.2 key with
      | error e => rw [hd] at h; simp [Bind.bind, Except.bind] at h
      | ok v =>
          rw [hd] at h
          cases hr : decryptAllKeys E key rest with
          | error e => rw [hr] at h; simp [Bind.bind, Except.bind] at h
          | ok r =>
              rw [hr] at h
              simp [Bind.bind, Except.bind] at h
              subst h
              simp [ih r hr]

theorem lookup_isNone_of_fst_eq (a : Bytes) :
    ∀ (l₁ l₂ : List (Bytes × Bytes)), l₁.map Prod.fst = l₂.map Prod.fst →
      (List.lookup a l₁).isNone = (List.lookup a l₂).isNone := by
  intro l₁
  induction l₁ with
  | nil =>
      intro l₂ h
      cases l₂ with
      | nil => rfl
      | cons q s => simp at h
  | cons p t ih =>
      intro l₂ h
      cases l₂ with
      | nil => simp at h
      | cons q s =>
          simp only [List.map_cons, List.cons.injEq] at h
          simp only [List.lookup, ← h.1]
          split
          · rfl
          · exact ih s h.2

theorem processEntries_length (E : Bytes → Bytes → Bytes)
    (dk : List (Bytes × Bytes)) (es : List ZipEntry) :
    (processEntries E dk es).1.length = es.length := by
  induction es with
  | nil => rfl
  | cons e rest ih =>
      simp only [processEntries]
      split <;> (try split) <;> simp [ih]

theorem processEntries_counts (E : Bytes → Bytes → Bytes)
    (dk : List (Bytes × Bytes)) (es : List ZipEntry) :
    (processEntries E dk es).2.1 + (processEntries E dk es).2.2 +
      countFailed E dk es = es.length := by
  induction es with
  | nil => rfl
  | cons e rest ih =>
      simp only [processEntries, countFailed]
      split <;> (try split) <;> simp <;> omega

theorem processEntries_getD (E : Bytes → Bytes → Bytes)
    (dk : List (Bytes × Bytes)) (es : List ZipEntry) (i : Nat)
    (hi : i < es.length) :
    ((processEntries E dk es).1.getD i dummyEntry).filename =
      (es.getD i dummyEntry).filename ∧
    ((processEntries E dk es).1.getD i dummyEntry).meta =
      (es.getD i dummyEntry).meta ∧
    (List.lookup (normalizePath (es.getD i dummyEntry).filename) dk = none →
      ((processEntries E dk es).1.getD i dummyEntry).content =
        (es.getD i dummyEntry).content) ∧
    (∀ ck err,
      List.lookup (normalizePath (es.getD i dummyEntry).filename) dk = some ck →
      decrypt_file_content E (es.getD i dummyEntry).content ck = .error err →
      ((processEntries E dk es).1.getD i dummyEntry).content =
        (es.getD i dummyEntry).content) := by
  induction es generalizing i with
  | nil => simp at hi
  | cons e rest ih =>
      cases i with
      | zero =>
          simp only [processEntries, List.getD_cons_zero]
          cases hl : List.lookup (normalizePath e.filename) dk with
          | none => simp [hl]
          | some ck =>
              cases hd : decrypt_file_content E e.content ck with
              | ok v =>
                  simp only [hl, hd, List.getD_cons_zero]
                  refine ⟨by simp, by simp, by simp, ?_⟩
                  intro ck2 err h1 h2
                  rw [Option.some.injEq] at h1
                  subst h1
                  rw [hd] at h2
                  exact absurd h2 (by simp)
              | error err => simp [hl, hd]
      | succ j =>
          have hj : j < rest.length := by simpa using hi
          have := ih j hj
          simp only [processEntries, List.getD_cons_succ]
          split <;> (try split) <;> simpa using this

theorem decrypt_book_ok (E : Bytes → Bytes → Bytes) (key : Bytes)
    (table : List (Bytes × Bytes)) (entries : List ZipEntry)
    (dk : List (Bytes × Bytes)) (h : decryptAllKeys E key table = .ok dk) :
    decrypt_book E key table entries = .ok (processEntries E dk entries) := by
  simp [decrypt_book, h, Bind.bind, Except.bind]

theorem decrypt_book_shape (E : Bytes → Bytes → Bytes) (key : Bytes)
    (table : List (Bytes × Bytes)) (entries out : List ZipEntry) (d c : Nat)
    (h : decrypt_book E key table entries = .ok (out, d, c)) :
    ∃ dk, decryptAllKeys E key table = .ok dk ∧
      out = (processEntries E dk entries).1 ∧
      d = (processEntries E dk entries).2.1 ∧
      c = (processEntries E dk entries).2.2 := by
  cases hk : decryptAllKeys E key table with
  | error e => rw [decrypt_book, hk] at h; simp [Bind.bind, Except.bind] at h
  | ok dk =>
      rw [decrypt_book, hk] at h
      simp [Bind.bind, Except.bind] at h
      exact ⟨dk, rfl, by rw [h], by rw [h], by rw [h]⟩

theorem decryptAllKeys_error (E : Bytes → Bytes → Bytes) (key : Bytes)
    (eid kb : Bytes) (err : PyErr) (post : List (Bytes × Bytes))
    (hbad : decrypt_content_key E kb key = .error err) :
    ∀ pre : List (Bytes × Bytes),
      (∀ p ∈ pre, exOk (decrypt_content_key E p.2 key) = true) →
      decryptAllKeys E key (pre ++ (eid, kb) :: post) = .error err := by
  intro pre
  induction pre with
  | nil =>
      intro _
      simp [decryptAllKeys, hbad, Bind.bind, Except.bind]
  | cons p t ih =>
      intro hpre
      have hp := hpre p (by simp)
      cases hd : decrypt_content_key E p.2 key with
      | error e => rw [hd] at hp; simp [exOk] at hp
      | ok v =>
          have hih := ih (fun q hq => hpre q (by simp [hq]))
          simp [List.cons_append, decryptAllKeys, hd, hih, Bind.bind,
            Except.bind]

/-! ### Concrete inputs for counterexamples and witnesses -/

/-- An all-zero 16-byte master key. -/
def key16 : Bytes := List.replicate 16 0

/-- Valid base64 of sixteen zero bytes: `"AAAAAAAAAAAAAAAAAAAAAA=="`. -/
def goodB64 : Bytes := List.replicate 22 65 ++ [61, 61]

/-- Truncated base64: 22 data characters with the padding cut off. -/
def truncB64 : Bytes := List.replicate 22 65

/-- Truncated base64: 21 data characters (1 more than a multiple of 4). -/
def truncB64odd : Bytes := List.replicate 21 65

/-- The ciphertext of the verified first entry in the C1 runs: a space, the
bytes of `<?xml`, filler, and a final padding count of 1. -/
def c1content : Bytes := 32 :: xmlSig ++ [0, 0, 0, 0, 0, 0, 0, 0, 0, 1]

/-- The buffer the verifier recovers from `c1content` under `idCipher`:
the signature occurs at offset 1, not at the start. -/
def c1plain : Bytes := 32 :: xmlSig ++ [0, 0, 0, 0, 0, 0, 0, 0, 0]

/-- An archive reader that returns `c1content` for every entry name. -/
def c1read : Bytes → Except PyErr Bytes := fun _ => .ok c1content

/-- Entry names (short ASCII tags). -/
def entryA : Bytes := [97]

def entryB : Bytes := [98]

def entryC : Bytes := [99]

def entryD : Bytes := [100]

def c1fe : Bytes := [101]

/-! ### Claim theorems -/

/-- C3: for every seed, serial and userId, the derived master key equals
the reference definition: two chained SHA-256 lowercase hexdigests
(seed ++ serial, then deviceDigest ++ userId) with the master key the
hex-decoding of characters 32..64 of the second digest. -/
theorem c3_key_derivation (seed serial userId : Bytes) :
    derive_user_key serial userId seed = masterKeySpec seed serial userId := by
  have h : ∀ l : Bytes, l.length = 32 →
      List.take 32 (List.drop 32 (hexString l)) =
        List.drop 32 (hexString l) := by
    intro l hl
    apply List.take_of_length_le
    rw [List.length_drop, hexString_length, hl]
  simp only [derive_user_key, masterKeySpec]
  rw [h _ (sha256_length _)]

/-- C3 witness: the derivation and the reference definition agree on a
concrete device. -/
theorem c3_witness :
    derive_user_key [78] [97] [56] = masterKeySpec [56] [78] [97] :=
  c3_key_derivation [56] [78] [97]

/-- C8 (amended): for a non-empty buffer whose length is a multiple of the
block size and whose last byte N is at least 1, unpad removes the last N
bytes.  (When N is 0 the result is the empty buffer, not the input —
see the counterexample.) -/
theorem c8_unpad_strips (data : Bytes) (n : Nat) (h1 : data.getLast? = some n)
    (h2 : data.length % 16 = 0) (h3 : 1 ≤ n) :
    pkcs7_unpad data = .ok (data.take (data.length - n)) := by
  have hn : n ≠ 0 := by omega
  simp [pkcs7_unpad, h1, pyNegSlice, hn]

/-- C8 counterexample: a 16-byte buffer ending in 0 satisfies the claim's
hypotheses, removing its last 0 bytes would return it unchanged, but unpad
returns the empty buffer (`data[:-0]` is the empty slice). -/
theorem c8_counterexample :
    pkcs7_unpad (List.replicate 16 0) = .ok [] ∧
    (List.replicate 16 0 : Bytes).length % 16 = 0 ∧
    (List.replicate 16 0 : Bytes).getLast? = some 0 ∧
    (List.replicate 16 0 : Bytes).take ((List.replicate 16 0 : Bytes).length - 0)
      = List.replicate 16 0 ∧
    (Except.ok ([] : Bytes) : Except PyErr Bytes) ≠
      Except.ok (List.replicate 16 0) := by
  decide

/-- C8 witness: unpad strips the two trailing bytes of a 16-byte buffer
ending in 2. -/
theorem c8_witness :
    pkcs7_unpad (List.replicate 15 7 ++ [2]) =
      .ok ((List.replicate 15 7 ++ [2] : Bytes).take
        ((List.replicate 15 7 ++ [2] : Bytes).length - 2)) :=
  c8_unpad_strips _ 2 (by decide) (by decide) (by decide)

/-- C10: unpad never raises on a non-empty buffer, and when the last byte is
0 or at least the buffer length the result is the empty buffer. -/
theorem c10_unpad_total (data : Bytes) (h : data ≠ []) :
    exOk (pkcs7_unpad data) = true ∧
    (data.getLastD 0 = 0 ∨ data.length ≤ data.getLastD 0 →
      pkcs7_unpad data = .ok []) := by
  cases hd : data.getLast? with
  | none => exact absurd (by simpa using hd) h
  | some n =>
      have hlast : data.getLastD 0 = n := by
        rw [List.getLastD_eq_getLast?, hd]
        rfl
      refine ⟨by simp [pkcs7_unpad, hd, exOk], ?_⟩
      intro hcond
      rw [hlast] at hcond
      simp only [pkcs7_unpad, hd, Except.ok.injEq]
      rcases hcond with h0 | hle
      · simp [pyNegSlice, h0]
      · by_cases h0 : n = 0
        · simp [pyNegSlice, h0]
        · have hz : data.length - n = 0 := by omega
          simp [pyNegSlice, h0, hz]

/-- C10 witness: a one-byte buffer ending in 0 unpads to the empty buffer
without raising. -/
theorem c10_witness : pkcs7_unpad [0] = .ok [] :=
  (c10_unpad_total [0] (by decide)).2 (by decide)

/-- C9 (amended): reading the device descriptor returns the first
comma-delimited field of the stripped line; it fails (with the
missing-descriptor error) exactly when the file is absent; the
malformed-descriptor failure is unreachable because splitting always
produces at least one (possibly empty) field. -/
theorem c9_device_serial_reader (content : Bytes) :
    get_device_serial none = .error PyErr.fileNotFoundError ∧
    get_device_serial (some content) =
      .ok ((pySplit 44 (pyStrip content)).headD []) ∧
    exOk (get_device_serial (some content)) = true := by
  refine ⟨rfl, ?_, ?_⟩ <;>
    simp [get_device_serial, pySplit_length_pos, exOk]

/-- C9 counterexample: an empty descriptor line has no fields, yet the
reader succeeds with an empty serial instead of failing with the
malformed-descriptor error. -/
theorem c9_counterexample :
    get_device_serial (some []) = .ok [] ∧
    exOk (get_device_serial (some [])) = true := by
  decide

/-- C9 witness: the reader returns the first field of a concrete
two-field line. -/
theorem c9_witness :
    get_device_serial (some [97, 44, 98]) =
      .ok ((pySplit 44 (pyStrip [97, 44, 98])).headD []) :=
  (c9_device_serial_reader [97, 44, 98]).2.1

/-- C1 (amended): the verifier accepts a candidate master key iff the
decode/decrypt/unpad chain completes and one of the recognized signatures
occurs as a substring within the bounded prefix window of the recovered
buffer — the first 100 bytes for the text markers, the first 10 bytes for
the JPEG marker.  (The signature need not be at the start of the buffer:
see the counterexample.) -/
theorem c1_verifier_characterization (E : Bytes → Bytes → Bytes)
    (read : Bytes → Except PyErr Bytes) (fe fkb key : Bytes) :
    verifyCandidate E read fe fkb key = true ↔
      ∃ d, recoverPlaintext E read fe fkb key = .ok d ∧
        ((∃ i, xmlSig <+: (d.take 100).drop i) ∨
         (∃ i, htmlSig <+: (d.take 100).drop i) ∨
         (∃ i, jpegSig <+: (d.take 10).drop i)) := by
  cases hr : recoverPlaintext E read fe fkb key with
  | error e => simp [verifyCandidate, hr]
  | ok d =>
      simp only [verifyCandidate, hr, checkSignatures, Bool.or_eq_true,
        bytesContain_iff, Except.ok.injEq, exists_eq_left, exists_eq_left']
      exact or_assoc

/-- C1 counterexample: a run in which the verifier accepts although the
recovered buffer does not begin with any recognized signature (the XML
marker occurs at offset 1). -/
theorem c1_counterexample :
    verifyCandidate idCipher c1read c1fe goodB64 key16 = true ∧
    recoverPlaintext idCipher c1read c1fe goodB64 key16 = .ok c1plain ∧
    ¬ beginsWithSig c1plain := by
  refine ⟨by decide, by decide, ?_⟩
  rintro (h | h | h) <;>
    (rw [← List.isPrefixOf_iff_prefix] at h; revert h; decide)

/-- C1 witness: the characterization applied to a concrete accepting run. -/
theorem c1_witness :
    verifyCandidate idCipher c1read c1fe goodB64 key16 = true :=
  (c1_verifier_characterization idCipher c1read c1fe goodB64 key16).mpr
    ⟨c1plain, by decide,
      Or.inl ⟨1, by rw [← List.isPrefixOf_iff_prefix]; decide⟩⟩

/-- C4 (amended): the key search tries the seeds in their given order; an
exception anywhere in a candidate's decode/decrypt/verify chain makes that
candidate failed and the search advances; because the transcode runs
inside the same `try` block after acceptance, an exception raised by the
transcode also advances the search past the accepted seed; the search
returns the master key derived from the first seed whose candidate is
accepted *and* whose transcode completes, and it ends in the terminal
exhausted failure iff no seed achieves both. -/
theorem c4_key_search (E : Bytes → Bytes → Bytes)
    (read : Bytes → Except PyErr Bytes) (serial user_id : Bytes)
    (content_keys : List (Bytes × Bytes)) (entries : List ZipEntry)
    (seeds : List Bytes) :
    searchKey E read serial user_id content_keys entries seeds =
      (seeds.find?
        (seedSucceeds E read serial user_id content_keys entries)).map
        (derive_user_key serial user_id) ∧
    (searchKey E read serial user_id content_keys entries seeds = none ↔
      ∀ s ∈ seeds,
        seedSucceeds E read serial user_id content_keys entries s = false) ∧
    (∀ s err,
      recoverPlaintext E read (content_keys.headD ([], [])).1
          (content_keys.headD ([], [])).2
          (derive_user_key serial user_id s) = .error err →
      seedSucceeds E read serial user_id content_keys entries s = false) ∧
    (∀ s err,
      decrypt_book E (derive_user_key serial user_id s) content_keys entries
        = .error err →
      seedSucceeds E read serial user_id content_keys entries s = false) := by
  have h1 : searchKey E read serial user_id content_keys entries seeds =
      (seeds.find?
        (seedSucceeds E read serial user_id content_keys entries)).map
        (derive_user_key serial user_id) := by
    induction seeds with
    | nil => rfl
    | cons s rest ih =>
        simp only [searchKey, List.find?, seedSucceeds, acceptsSeed,
          verifyCandidate]
        cases hr : recoverPlaintext E read (content_keys.headD ([], [])).1
            (content_keys.headD ([], [])).2
            (derive_user_key serial user_id s) with
        | error e => simp [hr, ih, seedSucceeds, acceptsSeed, verifyCandidate]
        | ok d =>
            cases hc : checkSignatures d with
            | false =>
                simp [hr, hc, ih, seedSucceeds, acceptsSeed, verifyCandidate]
            | true =>
                cases hb : decrypt_book E (derive_user_key serial user_id s)
                    content_keys entries with
                | ok r => simp [hr, hc, hb, exOk]
                | error e =>
                    simp [hr, hc, hb, exOk, ih, seedSucceeds, acceptsSeed,
                      verifyCandidate]
  refine ⟨h1, ?_, ?_, ?_⟩
  · rw [h1]
    simp [List.find?_eq_none]
  · intro s err hrec
    simp only [seedSucceeds, acceptsSeed, verifyCandidate]
    rw [hrec]
    simp
  · intro s err hb
    simp only [seedSucceeds]
    rw [hb]
    simp [exOk]

/-- C4 counterexample: a single-seed run whose candidate is accepted by the
verifier, but whose transcode raises inside the same `try` (the second
table entry's key is truncated base64): the search swallows the exception,
advances past the accepted seed, and ends in the terminal exhausted
failure — so the search neither returns the first accepted seed's key nor
fails only when no candidate is accepted. -/
theorem c4_counterexample :
    verifyCandidate idCipher c1read entryA goodB64
      (derive_user_key [] [] [83]) = true ∧
    decrypt_book idCipher (derive_user_key [] [] [83])
      [(entryA, goodB64), (entryB, truncB64)] [] =
        .error PyErr.binasciiIncorrectPadding ∧
    searchKey idCipher c1read [] [] [(entryA, goodB64), (entryB, truncB64)]
      [] [[83]] = none := by
  decide

/-- C4 witness: the first-match characterization at a concrete seed list. -/
theorem c4_witness :
    searchKey idCipher c1read [] [] [(entryA, goodB64)] [] [[66]] =
      (([[66]] : List Bytes).find?
        (seedSucceeds idCipher c1read [] [] [(entryA, goodB64)] [])).map
        (derive_user_key [] []) :=
  (c4_key_search idCipher c1read [] [] [(entryA, goodB64)] [] [[66]]).1

/-- C2 (amended): when one content-key table entry's encrypted key is
corrupted so that its decode/decrypt raises (all entries before it decode
fine), the transcode does not fall back for that entry — the upfront
content-key decryption loop aborts the entire call with that error and no
archive entry is processed. -/
theorem c2_corrupt_key_aborts (E : Bytes → Bytes → Bytes)
    (key eid kb : Bytes) (err : PyErr) (pre post : List (Bytes × Bytes))
    (entries : List ZipEntry)
    (hpre : ∀ p ∈ pre, exOk (decrypt_content_key E p.2 key) = true)
    (hbad : decrypt_content_key E kb key = .error err) :
    decrypt_book E key (pre ++ (eid, kb) :: post) entries = .error err := by
  rw [decrypt_book, decryptAllKeys_error E key eid kb err post hbad pre hpre]
  rfl

/-- C2 counterexample: a two-entry table whose second key is truncated
base64; the transcode aborts with the base64 error instead of decrypting
the first entry and falling back only on the second. -/
theorem c2_counterexample :
    decrypt_book idCipher key16 [(entryA, goodB64), (entryB, truncB64)]
        [⟨entryA, 0, List.replicate 16 2⟩, ⟨entryB, 0, List.replicate 16 3⟩] =
      .error PyErr.binasciiIncorrectPadding ∧
    exOk (decrypt_book idCipher key16 [(entryA, goodB64), (entryB, truncB64)]
        [⟨entryA, 0, List.replicate 16 2⟩, ⟨entryB, 0, List.replicate 16 3⟩]) =
      false := by
  decide

/-- C2 witness: the abort theorem applied to a concrete corrupted table. -/
theorem c2_witness :
    decrypt_book idCipher key16
        ([(entryA, goodB64)] ++ (entryB, truncB64) :: [])
        [⟨entryA, 0, List.replicate 16 2⟩] =
      .error PyErr.binasciiIncorrectPadding :=
  c2_corrupt_key_aborts idCipher key16 entryB truncB64
    PyErr.binasciiIncorrectPadding [(entryA, goodB64)] []
    [⟨entryA, 0, List.replicate 16 2⟩] (by decide) (by decide)

/-- C5 (amended): when every content key decrypts, the transcode reports
two counts — entries decrypted and entries copied because unmatched; a
matched entry whose payload decryption fails is written as fallback but
counted in neither, so decrypted + copied + failed equals the total number
of entries, with the failed count not part of the report. -/
theorem c5_report_counts (E : Bytes → Bytes → Bytes) (key : Bytes)
    (table : List (Bytes × Bytes)) (entries : List ZipEntry)
    (dk : List (Bytes × Bytes)) (h : decryptAllKeys E key table = .ok dk) :
    decrypt_book E key table entries = .ok (processEntries E dk entries) ∧
    (processEntries E dk entries).2.1 + (processEntries E dk entries).2.2 +
      countFailed E dk entries = entries.length :=
  ⟨decrypt_book_ok E key table entries dk h,
   processEntries_counts E dk entries⟩

/-- C5 counterexample: one matched entry whose payload fails to decrypt is
written as fallback; the report is (0 decrypted, 0 copied) although the
archive has one entry, so no two reported counts sum to the total and no
third count is reported. -/
theorem c5_counterexample :
    decrypt_book idCipher key16 [(entryC, goodB64)] [⟨entryC, 0, [5]⟩] =
      .ok ([⟨entryC, 0, [5]⟩], 0, 0) ∧
    ([⟨entryC, 0, [5]⟩] : List ZipEntry).length ≠ 0 + 0 := by
  decide

/-- C5 witness: the counts identity on a concrete run with one failing
matched entry. -/
theorem c5_witness :
    (processEntries idCipher [(entryC, List.replicate 16 0)]
        [⟨entryC, 0, [5]⟩]).2.1 +
      (processEntries idCipher [(entryC, List.replicate 16 0)]
        [⟨entryC, 0, [5]⟩]).2.2 +
      countFailed idCipher [(entryC, List.replicate 16 0)]
        [⟨entryC, 0, [5]⟩] =
      ([⟨entryC, 0, [5]⟩] : List ZipEntry).length :=
  (c5_report_counts idCipher key16 [(entryC, goodB64)] [⟨entryC, 0, [5]⟩]
    [(entryC, List.replicate 16 0)] (by decide)).2

/-- C6: whenever the transcode produces a destination archive, it has
exactly as many entries as the source, and at every position the entry
name and metadata are preserved; an entry whose normalized name is not in
the content-key table keeps its payload bytes unchanged. -/
theorem c6_archive_structure (E : Bytes → Bytes → Bytes) (key : Bytes)
    (table : List (Bytes × Bytes)) (entries out : List ZipEntry) (d c : Nat)
    (h : decrypt_book E key table entries = .ok (out, d, c)) :
    out.length = entries.length ∧
    ∀ i, i < entries.length →
      (out.getD i dummyEntry).filename = (entries.getD i dummyEntry).filename ∧
      (out.getD i dummyEntry).meta = (entries.getD i dummyEntry).meta ∧
      (List.lookup (normalizePath (entries.getD i dummyEntry).filename) table
          = none →
        (out.getD i dummyEntry).content = (entries.getD i dummyEntry).content)
    := by
  obtain ⟨dk, hk, hout, _, _⟩ := decrypt_book_shape E key table entries out d c h
  subst hout
  refine ⟨processEntries_length E dk entries, ?_⟩
  intro i hi
  obtain ⟨h1, h2, h3, _⟩ := processEntries_getD E dk entries i hi
  refine ⟨h1, h2, ?_⟩
  intro hnone
  apply h3
  have hiso := lookup_isNone_of_fst_eq
    (normalizePath (entries.getD i dummyEntry).filename) dk table
    (decryptAllKeys_fst E key table dk hk)
  rw [hnone] at hiso
  simpa using hiso

/-- C6 witness: structure preservation on a concrete run with an unmatched
entry. -/
theorem c6_witness :
    decrypt_book idCipher key16 [] [⟨entryD, 3, [1, 2, 3]⟩] =
      .ok ([⟨entryD, 3, [1, 2, 3]⟩], 0, 1) ∧
    ([⟨entryD, 3, [1, 2, 3]⟩] : List ZipEntry).length =
      ([⟨entryD, 3, [1, 2, 3]⟩] : List ZipEntry).length :=
  ⟨by decide,
   (c6_archive_structure idCipher key16 [] [⟨entryD, 3, [1, 2, 3]⟩]
     [⟨entryD, 3, [1, 2, 3]⟩] 0 1 (by decide)).1⟩

/-- C7 (amended): when every content key decrypts upfront, a matched entry
whose payload decryption fails is written back with its original bytes and
the transcode completes over all entries; however, a failure while
decrypting a matched entry's content key (performed upfront for the whole
table) aborts the entire transcode instead of falling back. -/
theorem c7_payload_failure_fallback (E : Bytes → Bytes → Bytes) (key : Bytes)
    (table : List (Bytes × Bytes)) (entries : List ZipEntry)
    (dk : List (Bytes × Bytes)) (h : decryptAllKeys E key table = .ok dk) :
    decrypt_book E key table entries = .ok (processEntries E dk entries) ∧
    (processEntries E dk entries).1.length = entries.length ∧
    ∀ i ck err, i < entries.length →
      List.lookup (normalizePath (entries.getD i dummyEntry).filename) dk
        = some ck →
      decrypt_file_content E (entries.getD i dummyEntry).content ck
        = .error err →
      ((processEntries E dk entries).1.getD i dummyEntry).content =
        (entries.getD i dummyEntry).content := by
  refine ⟨decrypt_book_ok E key table entries dk h,
    processEntries_length E dk entries, ?_⟩
  intro i ck err hi hl hd
  exact (processEntries_getD E dk entries i hi).2.2.2 ck err hl hd

/-- C7 counterexample: a single matched entry whose content key is
corrupted base64; instead of writing the original bytes and continuing,
the transcode aborts with the decode error. -/
theorem c7_counterexample :
    decrypt_book idCipher key16 [(entryD, truncB64odd)]
        [⟨entryD, 0, List.replicate 16 4⟩] =
      .error PyErr.binasciiInvalidLength ∧
    exOk (decrypt_book idCipher key16 [(entryD, truncB64odd)]
        [⟨entryD, 0, List.replicate 16 4⟩]) = false := by
  decide

/-- C7 witness: a concrete run in which the matched entry's payload fails
to decrypt and the transcode still completes. -/
theorem c7_witness :
    decrypt_book idCipher key16 [(entryB, goodB64)] [⟨entryB, 1, [9]⟩] =
      .ok (processEntries idCipher [(entryB, List.replicate 16 0)]
        [⟨entryB, 1, [9]⟩]) :=
  (c7_payload_failure_fallback idCipher key16 [(entryB, goodB64)]
    [⟨entryB, 1, [9]⟩] [(entryB, List.replicate 16 0)] (by decide)).1

end KoboPoc
